import Mathlib

/-!
Formal model of the ResolverPay intent settlement system and proofs
checking its specification.

Part 1 models the on-chain Move module `intent_protocol::intent`
(`src/sui/contract/sources/intent_protocol.move`): intents, the protocol
configuration, and the state-changing entry points `execute_intent`,
`cancel_intent` and `cleanup_expired`.  Move u64 arithmetic aborts on
overflow, so the one multiplication that can exceed `2 ^ 64 - 1`
(`input_amount * config.fee_bps`) is modelled with an explicit overflow
abort.  Addresses are modelled as `Nat`; coin and balance values are
their `u64` magnitudes.  A Move abort rolls the whole transaction back,
so an aborting call is modelled as `Except.error` carrying no effects.

Part 2 models the TypeScript solver engine
(`src/sui/intent-solver/src/solver-engine.ts`): profitability analysis,
coin selection for execution, the order-book quoter (JS `number`
arithmetic modelled exactly over `ℚ`), and the BCS u64-vector decoder
(JS 32-bit signed bitwise semantics modelled explicitly over `Int`).
-/

namespace Contract

/-- Status constant `STATUS_OPEN` from the Move module. -/
def STATUS_OPEN : Nat := 0

/-- Status constant `STATUS_COMPLETED` from the Move module. -/
def STATUS_COMPLETED : Nat := 1

/-- Status constant `STATUS_CANCELLED` from the Move module. -/
def STATUS_CANCELLED : Nat := 2

/-- Status constant `STATUS_EXPIRED` from the Move module. -/
def STATUS_EXPIRED : Nat := 3

/-- Abort code `EInvalidStatus`. -/
def EInvalidStatus : Nat := 0

/-- Abort code `EInvalidOwner`. -/
def EInvalidOwner : Nat := 1

/-- Abort code `EInsufficientOutput`. -/
def EInsufficientOutput : Nat := 2

/-- Abort code `EIntentExpired`. -/
def EIntentExpired : Nat := 3

/-- Abort code `EIntentNotExpired`. -/
def EIntentNotExpired : Nat := 5

/-- Fee denominator `BPS_DENOMINATOR` from the Move module. -/
def BPS_DENOMINATOR : Nat := 10000

/-- First value outside the `u64` range. -/
def u64Size : Nat := 2 ^ 64

/-- A Move transaction abort: either a user abort with a numeric code
(`assert!` failure) or a VM arithmetic abort (u64 overflow). -/
inductive MoveAbort where
  | code (n : Nat)
  | arithmeticOverflow
  deriving DecidableEq, Repr

/-- The `ProtocolConfig` shared object (fields other than `id`). -/
structure ProtocolConfig where
  feeBps : Nat
  feeRecipient : Nat
  paused : Bool
  deriving DecidableEq, Repr

/-- The `Intent` shared object (fields other than `id` and the two
`TypeName` fields, which no state-changing entry point reads). -/
structure Intent where
  owner : Nat
  inputBalance : Nat
  minOutputAmount : Nat
  deadline : Nat
  status : Nat
  solver : Option Nat
  deriving DecidableEq, Repr

/-- The `IntentExecuted` event (without the object id). -/
structure IntentExecutedEvent where
  solver : Nat
  inputAmount : Nat
  outputAmount : Nat
  feeAmount : Nat
  executionTime : Nat
  deriving DecidableEq, Repr

/-- The `IntentCancelled` event (without the object id). -/
structure IntentCancelledEvent where
  owner : Nat
  deriving DecidableEq, Repr

/-- The `IntentExpired` event (without the object id). -/
structure IntentExpiredEvent where
  owner : Nat
  triggeredBy : Nat
  refundAmount : Nat
  deriving DecidableEq, Repr

/-- Effects of a successful `execute_intent` call: the updated intent,
the `Balance<InputAsset>` returned to the caller, the transfer of the
output coin, the optional fee transfer `(recipient, amount)` (the Move
code only transfers a fee coin when `fee_amount > 0`), and the emitted
event. -/
structure ExecuteEffects where
  intent : Intent
  returnedBalance : Nat
  outputRecipient : Nat
  outputAmount : Nat
  feeTransfer : Option (Nat × Nat)
  event : IntentExecutedEvent
  deriving DecidableEq, Repr

/-- Amount of the fee transfer of an `ExecuteEffects` (0 when no fee
coin was transferred). -/
def ExecuteEffects.feeAmountPaid (e : ExecuteEffects) : Nat :=
  match e.feeTransfer with
  | none => 0
  | some p => p.2

/-- Effects of a successful `cancel_intent` call. -/
structure CancelEffects where
  intent : Intent
  returnedBalance : Nat
  event : IntentCancelledEvent
  deriving DecidableEq, Repr

/-- Effects of a successful `cleanup_expired` call: the updated intent
and the refund coin transfer. -/
structure CleanupEffects where
  intent : Intent
  refundRecipient : Nat
  refundAmount : Nat
  event : IntentExpiredEvent
  deriving DecidableEq, Repr

/-- Model of `execute_intent` (intent_protocol.move lines 174-215).
Asserts, in source order: `status == STATUS_OPEN`, `timestamp <=
deadline`, `output_amount >= min_output_amount`; then computes
`fee_amount = input_amount * fee_bps / BPS_DENOMINATOR` (the u64
multiplication aborts on overflow), withdraws the whole input balance,
transfers the fee (if positive) to `config.fee_recipient`, marks the
intent COMPLETED with `solver = sender`, emits `IntentExecuted`,
transfers the output coin to `intent.owner`, and returns the remaining
input balance to the caller. -/
def execute_intent (intent : Intent) (outputCoinValue : Nat)
    (config : ProtocolConfig) (clockNow : Nat) (sender : Nat) :
    Except MoveAbort ExecuteEffects :=
  if intent.status ≠ STATUS_OPEN then .error (.code EInvalidStatus)
  else if ¬ clockNow ≤ intent.deadline then .error (.code EIntentExpired)
  else if ¬ intent.minOutputAmount ≤ outputCoinValue then
    .error (.code EInsufficientOutput)
  else
    let inputAmount := intent.inputBalance
    if u64Size ≤ inputAmount * config.feeBps then .error .arithmeticOverflow
    else
      let feeAmount := inputAmount * config.feeBps / BPS_DENOMINATOR
      .ok
        { intent :=
            { intent with
              status := STATUS_COMPLETED
              solver := some sender
              inputBalance := 0 }
          returnedBalance := inputAmount - feeAmount
          outputRecipient := intent.owner
          outputAmount := outputCoinValue
          feeTransfer :=
            if 0 < feeAmount then some (config.feeRecipient, feeAmount)
            else none
          event :=
            { solver := sender
              inputAmount := inputAmount
              outputAmount := outputCoinValue
              feeAmount := feeAmount
              executionTime := clockNow } }

/-- Model of `cancel_intent` (intent_protocol.move lines 217-232).
Asserts, in source order: `owner == sender`, then `status ==
STATUS_OPEN`; marks the intent CANCELLED and returns the whole input
balance to the caller. -/
def cancel_intent (intent : Intent) (sender : Nat) :
    Except MoveAbort CancelEffects :=
  if intent.owner ≠ sender then .error (.code EInvalidOwner)
  else if intent.status ≠ STATUS_OPEN then .error (.code EInvalidStatus)
  else
    .ok
      { intent := { intent with status := STATUS_CANCELLED, inputBalance := 0 }
        returnedBalance := intent.inputBalance
        event := { owner := intent.owner } }

/-- Model of `cleanup_expired` (intent_protocol.move lines 244-265).
Asserts, in source order: `status == STATUS_OPEN`, then `timestamp >
deadline`; marks the intent EXPIRED, emits `IntentExpired` with
`triggered_by = sender` and the full escrowed amount, and transfers the
refund coin to `intent.owner`. -/
def cleanup_expired (intent : Intent) (clockNow : Nat) (sender : Nat) :
    Except MoveAbort CleanupEffects :=
  if intent.status ≠ STATUS_OPEN then .error (.code EInvalidStatus)
  else if ¬ intent.deadline < clockNow then .error (.code EIntentNotExpired)
  else
    .ok
      { intent := { intent with status := STATUS_EXPIRED, inputBalance := 0 }
        refundRecipient := intent.owner
        refundAmount := intent.inputBalance
        event :=
          { owner := intent.owner
            triggeredBy := sender
            refundAmount := intent.inputBalance } }

/-- One successful state-changing operation on an existing intent:
the three entry points of the Move module that mutate an intent. -/
inductive Step : Intent → Intent → Prop where
  | execute (i : Intent) (v : Nat) (cfg : ProtocolConfig) (now sender : Nat)
      (eff : ExecuteEffects) (h : execute_intent i v cfg now sender = .ok eff) :
      Step i eff.intent
  | cancel (i : Intent) (sender : Nat) (eff : CancelEffects)
      (h : cancel_intent i sender = .ok eff) : Step i eff.intent
  | cleanup (i : Intent) (now sender : Nat) (eff : CleanupEffects)
      (h : cleanup_expired i now sender = .ok eff) : Step i eff.intent

end Contract

namespace Solver

/-- Status constant `STATUS_OPEN` of the solver (solver-engine.ts). -/
def STATUS_OPEN : Nat := 0

/-- Result of `SolverEngine.analyzeProfitability` (the fields the
execution decision reads). -/
structure ProfitAnalysis where
  isProfitable : Bool
  profitBps : Nat
  deriving DecidableEq, Repr

/-- Model of `SolverEngine.analyzeProfitability` (solver-engine.ts
lines 441-489).  All arithmetic is JS `BigInt` (exact integers):
`profitInOutput = outputReceived > outputRequired ? outputReceived -
outputRequired : 0`, `profitBps = profitInOutput * 10000n /
inputProvided` (truncating division), `isProfitable = profitBps >=
minProfitBps`. -/
def analyzeProfitability (quoteOutputRaw minOutputAmount inputAmount
    minProfitBps : Nat) : ProfitAnalysis :=
  let profitInOutput :=
    if minOutputAmount < quoteOutputRaw then quoteOutputRaw - minOutputAmount
    else 0
  let profitBps := profitInOutput * 10000 / inputAmount
  { isProfitable := minProfitBps ≤ profitBps, profitBps := profitBps }

/-- Outcome of one `SolverEngine.processIntent` run (which branch the
pipeline takes). -/
inductive ProcessAction where
  | exitNotFound
  | exitNotOpen
  | cleanupExpired
  | skip
  | execute
  deriving DecidableEq, Repr

/-- Model of the branch structure of `SolverEngine.processIntent`
(solver-engine.ts lines 385-436), given the fetched intent data and the
quote the profitability analysis obtained: exit if the intent is
missing or not OPEN, clean up if expired, skip if not profitable, else
execute. -/
def processIntentDecision (found : Bool) (status : Nat) (expiredNow : Bool)
    (quoteOutputRaw minOutputAmount inputAmount minProfitBps : Nat) :
    ProcessAction :=
  if ¬ found then .exitNotFound
  else if status ≠ STATUS_OPEN then .exitNotOpen
  else if expiredNow then .cleanupExpired
  else if (analyzeProfitability quoteOutputRaw minOutputAmount inputAmount
      minProfitBps).isProfitable then .execute
  else .skip

/-- Solver metrics counters (the ones `processIntent` itself touches). -/
structure Metrics where
  processed : Nat
  skipped : Nat
  deriving DecidableEq, Repr

/-- Metrics update performed by `processIntent`:
`metrics.intentsProcessed++` on entry, `metrics.intentsSkipped++`
exactly on the not-profitable branch. -/
def metricsAfterDecision (m : Metrics) (a : ProcessAction) : Metrics :=
  { processed := m.processed + 1
    skipped := m.skipped + (if a = ProcessAction.skip then 1 else 0) }

/-- Loop body of `SolverEngine.getCoins` (solver-engine.ts lines
977-1004): push each coin id, accumulate its balance, and break as soon
as the running total reaches `minAmount`.  Coins are represented by
their balances. -/
def selectCoinsAux (coins : List Nat) (minAmount : Nat) (total : Nat)
    (selected : List Nat) : List Nat × Nat :=
  match coins with
  | [] => (selected, total)
  | c :: rest =>
    let selected2 := selected ++ [c]
    let total2 := total + c
    if minAmount ≤ total2 then (selected2, total2)
    else selectCoinsAux rest minAmount total2 selected2

/-- Model of `SolverEngine.getCoins`: the selection loop followed by the
`totalBalance < minAmount` throw. -/
def getCoins (coins : List Nat) (minAmount : Nat) :
    Except String (List Nat × Nat) :=
  let r := selectCoinsAux coins minAmount 0 []
  if r.2 < minAmount then .error "Insufficient balance"
  else .ok r

/-- Coin preparation of `SolverEngine.executeIntent` (solver-engine.ts
lines 494-527): fetch coins with `getCoins(output_type,
min_output_amount)`, throw if none, merge all selected coins into the
first, and pass the merged coin — whole, without splitting — as the
`output_coin` argument of `execute_intent`.  Returns the value of the
payment coin. -/
def engineExecutePrep (coins : List Nat) (minOutputAmount : Nat) :
    Except String Nat :=
  match getCoins coins minOutputAmount with
  | .error e => .error e
  | .ok (sel, tot) =>
    if sel.isEmpty then .error "Insufficient balance for output token"
    else .ok tot

/-- The `outputToProvide` computed by the `POST /api/intent/execute`
handler: `minOutput + minOutput * 5n / 100n` (BigInt, truncating). -/
def handlerOutputToProvide (minOutputAmount : Nat) : Nat :=
  minOutputAmount + minOutputAmount * 5 / 100

/-- Coin preparation of the `POST /api/intent/execute` handler
(solver-engine.ts lines 1845-1896): fetch all of the solver's coins of
the output type, fail if there are none or their total is below
`outputToProvide`, merge them all, and split out exactly
`outputToProvide` as the payment coin.  Returns the value of the
payment coin. -/
def handlerExecutePrep (coins : List Nat) (minOutputAmount : Nat) :
    Except String Nat :=
  let outputToProvide := handlerOutputToProvide minOutputAmount
  if coins.isEmpty then .error "Solver has no output coins"
  else if coins.sum < outputToProvide then .error "Insufficient output balance"
  else .ok outputToProvide

/-- Modelled from the claim's words (spec 4.4 step a): gather coins of
the output type until their total is at least `min_output_amount` plus
a 5% buffer, merge them, and split out exactly that amount as the
payment coin.  Stated only to compare against the two source-derived
preparations above. -/
def claimedExecutePrep (coins : List Nat) (minOutputAmount : Nat) :
    Except String Nat :=
  let need := minOutputAmount + minOutputAmount * 5 / 100
  match getCoins coins need with
  | .error e => .error e
  | .ok _ => .ok need

/-- One price level of the Level-2 snapshot, in human units.  JS
`number` arithmetic on these values is modelled exactly over `ℚ`. -/
structure Level where
  price : ℚ
  quantity : ℚ
  deriving DecidableEq, Repr

/-- Loop of `SolverEngine.simulateMarketSell` (solver-engine.ts lines
928-934): walk the bids; break when no input remains; at each level
fill `min(remainingInput, bid.quantity)`, earn `fill * bid.price`. -/
def sellWalk : List Level → ℚ → ℚ
  | [], _ => 0
  | b :: rest, remaining =>
    if remaining ≤ 0 then 0
    else
      let fill := min remaining b.quantity
      fill * b.price + sellWalk rest (remaining - fill)

/-- Loop of `SolverEngine.simulateMarketBuy` (solver-engine.ts lines
958-965): walk the asks; break when no quote remains; at each level buy
`min(remainingInput / ask.price, ask.quantity)` base, spend
`fill * ask.price`. -/
def buyWalk : List Level → ℚ → ℚ
  | [], _ => 0
  | a :: rest, remaining =>
    if remaining ≤ 0 then 0
    else
      let maxBuyable := remaining / a.price
      let fill := min maxBuyable a.quantity
      fill + buyWalk rest (remaining - fill * a.price)

/-- The `endPrice` expression `levels[levels.length - 1]?.price ||
startPrice`: the last level's price, falling back to `startPrice` when
the list is empty or that price is `0` (JS `||` treats 0 as falsy). -/
def endPriceOf (levels : List Level) (startPrice : ℚ) : ℚ :=
  match levels.getLast? with
  | none => startPrice
  | some l => if l.price = 0 then startPrice else l.price

/-- Model of `SolverEngine.simulateMarketSell` (solver-engine.ts lines
916-941).  Throws (`none`) on an empty bid list; otherwise returns
`(outputAmount, priceImpact)` with `priceImpact = startPrice > 0 ?
(startPrice - endPrice) / startPrice * 100 : 0`. -/
def simulateMarketSell (bids : List Level) (inputAmount : ℚ) :
    Option (ℚ × ℚ) :=
  match bids with
  | [] => none
  | b0 :: _ =>
    let startPrice := b0.price
    let totalOutput := sellWalk bids inputAmount
    let endPrice := endPriceOf bids startPrice
    let priceImpact :=
      if 0 < startPrice then (startPrice - endPrice) / startPrice * 100 else 0
    some (totalOutput, priceImpact)

/-- Model of `SolverEngine.simulateMarketBuy` (solver-engine.ts lines
946-972), with `priceImpact = (endPrice - startPrice) / startPrice *
100` when `startPrice > 0`. -/
def simulateMarketBuy (asks : List Level) (inputAmount : ℚ) :
    Option (ℚ × ℚ) :=
  match asks with
  | [] => none
  | a0 :: _ =>
    let startPrice := a0.price
    let totalOutput := buyWalk asks inputAmount
    let endPrice := endPriceOf asks startPrice
    let priceImpact :=
      if 0 < startPrice then (endPrice - startPrice) / startPrice * 100 else 0
    some (totalOutput, priceImpact)

/-- Pool scalars used by the quoter for raw/human conversion. -/
structure Pool where
  baseScalar : ℚ
  quoteScalar : ℚ
  deriving DecidableEq, Repr

/-- Quote returned by `SolverEngine.getSwapQuote` (the numeric fields). -/
structure SwapQuote where
  outputRaw : ℤ
  priceImpact : ℚ
  midPrice : ℚ
  bestBid : ℚ
  bestAsk : ℚ
  deriving DecidableEq, Repr

/-- Model of `SolverEngine.getSwapQuote` (solver-engine.ts lines
718-794) after Level-2 retrieval, for a pool already resolved and a
direction `isSellBase = (inputType == pool.baseType)`.  Throws (`none`)
when either book side is empty; converts the raw input to human units
by the input scalar, simulates on the matching side, and returns
`output_raw = Math.floor(outputHuman * outputScalar)`. -/
def getSwapQuote (bids asks : List Level) (pool : Pool) (isSellBase : Bool)
    (inputAmountRaw : ℚ) : Option SwapQuote :=
  match bids, asks with
  | b0 :: _, a0 :: _ =>
    let inputScalar := if isSellBase then pool.baseScalar else pool.quoteScalar
    let outputScalar := if isSellBase then pool.quoteScalar else pool.baseScalar
    let inputAmountHuman := inputAmountRaw / inputScalar
    let bestBid := b0.price
    let bestAsk := a0.price
    let midPrice := (bestBid + bestAsk) / 2
    match
      (if isSellBase then simulateMarketSell bids inputAmountHuman
       else simulateMarketBuy asks inputAmountHuman) with
    | none => none
    | some r =>
      some
        { outputRaw := ⌊r.1 * outputScalar⌋
          priceImpact := r.2
          midPrice := midPrice
          bestBid := bestBid
          bestAsk := bestAsk }
  | _, _ => none

/-- Fold formulation of the market-sell walk, used to state the amended
walk claim without early exit: every level fills `min(remaining,
quantity)`; the state is `(remaining, accumulated output)`. -/
def sellFoldState (bids : List Level) (inputAmount : ℚ) : ℚ × ℚ :=
  bids.foldl
    (fun st lvl =>
      let fill := min st.1 lvl.quantity
      (st.1 - fill, st.2 + fill * lvl.price))
    (inputAmount, 0)

/-- Modelled from the claim's words: the price of the last level at
which the sell walk consumed a positive amount, defaulting to the
top-of-book price when nothing is consumed.  Stated only to compare the
claimed price-impact formula against the source's. -/
def lastFilledPrice : List Level → ℚ → ℚ → ℚ
  | [], _, current => current
  | b :: rest, remaining, current =>
    if remaining ≤ 0 then current
    else
      let fill := min remaining b.quantity
      lastFilledPrice rest (remaining - fill)
        (if 0 < fill then b.price else current)

/-- Modelled from the claim's words: price impact of a market sell as
`(bids[0].price - last_filled_price) / bids[0].price`. -/
def claimedSellImpact (bids : List Level) (inputAmount : ℚ) : ℚ :=
  match bids with
  | [] => 0
  | b0 :: _ =>
    (b0.price - lastFilledPrice bids inputAmount b0.price) / b0.price

end Solver

namespace Bcs

/-- JS `ToUint32` of an exact integer. -/
def toUint32 (i : Int) : Nat := (i % (2 ^ 32 : Int)).toNat

/-- JS `ToInt32` of an exact integer (two's-complement reinterpretation
of the low 32 bits). -/
def toInt32 (i : Int) : Int :=
  let u := i % (2 ^ 32 : Int)
  if u < 2 ^ 31 then u else u - 2 ^ 32

/-- JS `<<` on numbers: the left operand is converted to Int32, the
shift count is taken mod 32, and the result is the Int32
reinterpretation of the low 32 bits of the shifted value. -/
def jsShl32 (x : Int) (s : Nat) : Int :=
  toInt32 ((toUint32 x * 2 ^ (s % 32) : Nat) : Int)

/-- JS `|` on numbers: bitwise or of the two operands' low 32 bits,
reinterpreted as Int32. -/
def jsOr32 (a b : Int) : Int :=
  toInt32 ((toUint32 a ||| toUint32 b : Nat) : Int)

/-- Model of the ULEB128 length loop of `decodeU64Vector`
(solver-engine.ts lines 836-844): `length |= (byte & 0x7f) << shift`
with JS 32-bit signed bitwise operators, stopping after the first byte
with the high bit clear (bytes come from a `Uint8Array`, so a byte `b`
satisfies `b < 256` and `(b & 0x80) === 0` iff `b < 128`).  Returns the
accumulated length and the remaining bytes. -/
def readUleb : List Nat → Int → Nat → Int × List Nat
  | [], length, _ => (length, [])
  | b :: rest, length, shift =>
    let length2 := jsOr32 length (jsShl32 ((b % 128 : Nat) : Int) shift)
    if b < 128 then (length2, rest)
    else readUleb rest length2 (shift + 7)

/-- Little-endian value of a byte list, as accumulated by the decoder's
inner loop `value |= BigInt(bytes[offset + j]) << BigInt(j * 8)` — the
values are `BigInt`, so this accumulation is exact. -/
def le8Value (bytes : List Nat) : Nat :=
  bytes.foldr (fun b acc => b + 256 * acc) 0

/-- Model of the u64-reading loop of `decodeU64Vector` (solver-engine.ts
lines 847-854): `for (i = 0; i < length && offset + 8 <= bytes.length;
i++)` read 8 bytes little-endian.  `length` is the (possibly negative)
Int32 length; `count` is the number of values still to read. -/
def readU64s (count : Int) (bytes : List Nat) : List Nat :=
  if count ≤ 0 ∨ bytes.length < 8 then []
  else le8Value (bytes.take 8) :: readU64s (count - 1) (bytes.drop 8)
  termination_by bytes.length
  decreasing_by simp only [List.length_drop]; omega

/-- Model of `decodeU64Vector` (solver-engine.ts lines 830-857). -/
def decodeU64Vector (bytes : List Nat) : List Nat :=
  let r := readUleb bytes 0 0
  readU64s r.1 r.2

/-- Canonical ULEB128 encoding of a natural number, as used by BCS for
vector length prefixes. -/
def ulebEncode (n : Nat) : List Nat :=
  if h : n < 128 then [n]
  else (n % 128 + 128) :: ulebEncode (n / 128)
  termination_by n
  decreasing_by exact Nat.div_lt_self (by omega) (by omega)

/-- The `k`-byte little-endian encoding of `v` (mod `256 ^ k`). -/
def leBytes : Nat → Nat → List Nat
  | _, 0 => []
  | v, k + 1 => v % 256 :: leBytes (v / 256) k

/-- BCS encoding of a u64 vector, as described by the claim: a ULEB128
length prefix followed by each value as 8 little-endian bytes. -/
def encodeU64Vector (vals : List Nat) : List Nat :=
  ulebEncode vals.length ++ vals.foldr (fun v acc => leBytes v 8 ++ acc) []

end Bcs

/-!
Theorems.  Claims are stated against the models above; each claim has
exactly one theorem (plus a witness when the theorem carries
hypotheses, and a counterexample when the claim as frozen fails on the
code).
-/


/-- C1 counterexample: all three preconditions named by the claim hold
(the intent is OPEN, the clock is before the deadline, the output coin
covers `min_output_amount`), the fee is the admissible 500 bps, yet
`execute_intent` aborts, because the u64 multiplication
`input_amount * config.fee_bps` overflows for the escrowed
`2 ^ 60` units. -/
theorem execute_intent_overflow_cex :
    Contract.execute_intent
      { owner := 1, inputBalance := 2 ^ 60, minOutputAmount := 0,
        deadline := 100, status := Contract.STATUS_OPEN, solver := none }
      0 { feeBps := 500, feeRecipient := 2, paused := false } 0 3 =
      .error .arithmeticOverflow ∧
    (Contract.STATUS_OPEN = Contract.STATUS_OPEN ∧ (0 : Nat) ≤ 100 ∧
      (0 : Nat) ≤ 0) :=
  ⟨rfl, rfl, by omega, by omega⟩

/-- C1 (amended): if `execute_intent` is called on an intent with
status OPEN, clock time at most the deadline, an output coin of value
at least `min_output_amount`, and the u64 product
`input_amount * fee_bps` below `2 ^ 64` (otherwise the multiplication
aborts), then atomically: the output coin is transferred to the intent
owner, exactly `fee = input_amount * fee_bps / 10000` (truncated) of
the input is transferred to `fee_recipient` (no fee coin moves when the
fee is 0), the caller receives a balance of `input_amount - fee`, the
status becomes COMPLETED and the solver is set to the caller; if any of
the claim's preconditions fails the call aborts, with no effects (a
Move abort rolls the transaction back, so the intent is unchanged). -/
theorem execute_intent_atomic (i : Contract.Intent) (v : Nat)
    (cfg : Contract.ProtocolConfig) (now sender : Nat) :
    (i.status = Contract.STATUS_OPEN → now ≤ i.deadline →
      i.minOutputAmount ≤ v →
      i.inputBalance * cfg.feeBps < Contract.u64Size →
      ∃ eff, Contract.execute_intent i v cfg now sender = .ok eff ∧
        eff.outputRecipient = i.owner ∧
        eff.outputAmount = v ∧
        eff.feeTransfer =
          (if 0 < i.inputBalance * cfg.feeBps / 10000 then
            some (cfg.feeRecipient, i.inputBalance * cfg.feeBps / 10000)
          else none) ∧
        eff.returnedBalance =
          i.inputBalance - i.inputBalance * cfg.feeBps / 10000 ∧
        eff.intent.status = Contract.STATUS_COMPLETED ∧
        eff.intent.solver = some sender) ∧
    (¬ (i.status = Contract.STATUS_OPEN ∧ now ≤ i.deadline ∧
        i.minOutputAmount ≤ v) →
      ∃ e, Contract.execute_intent i v cfg now sender = .error e) := by
  constructor
  · intro h1 h2 h3 h4
    have hrun : Contract.execute_intent i v cfg now sender = .ok
        { intent :=
            { i with
              status := Contract.STATUS_COMPLETED
              solver := some sender
              inputBalance := 0 }
          returnedBalance :=
            i.inputBalance - i.inputBalance * cfg.feeBps / 10000
          outputRecipient := i.owner
          outputAmount := v
          feeTransfer :=
            if 0 < i.inputBalance * cfg.feeBps / 10000 then
              some (cfg.feeRecipient, i.inputBalance * cfg.feeBps / 10000)
            else none
          event :=
            { solver := sender
              inputAmount := i.inputBalance
              outputAmount := v
              feeAmount := i.inputBalance * cfg.feeBps / 10000
              executionTime := now } } := by
      simp only [Contract.execute_intent]
      rw [if_neg (by simp [h1]), if_neg (by simp [h2]), if_neg (by simp [h3]),
        if_neg (not_le.mpr h4)]
      rfl
    exact ⟨_, hrun, rfl, rfl, rfl, rfl, rfl, rfl⟩
  · intro h
    by_cases h1 : i.status = Contract.STATUS_OPEN
    · by_cases h2 : now ≤ i.deadline
      · have h3 : ¬ i.minOutputAmount ≤ v := fun hx => h ⟨h1, h2, hx⟩
        refine ⟨.code Contract.EInsufficientOutput, ?_⟩
        simp only [Contract.execute_intent]
        rw [if_neg (by simp [h1]), if_neg (by simp [h2]), if_pos h3]
      · refine ⟨.code Contract.EIntentExpired, ?_⟩
        simp only [Contract.execute_intent]
        rw [if_neg (by simp [h1]), if_pos h2]
    · refine ⟨.code Contract.EInvalidStatus, ?_⟩
      simp only [Contract.execute_intent]
      rw [if_pos h1]

/-- Witness for the amended C1 theorem, at the spec's fee scenario S2:
a 1_000_000_000-unit escrow at 100 bps pays a 10_000_000 fee and
returns 990_000_000 to the solver. -/
theorem execute_intent_atomic_witness :
    ∃ eff,
      Contract.execute_intent
        { owner := 1, inputBalance := 1000000000, minOutputAmount := 1800000,
          deadline := 3600000, status := Contract.STATUS_OPEN, solver := none }
        2000000 { feeBps := 100, feeRecipient := 5, paused := false } 10 9 =
        .ok eff ∧
      eff.outputRecipient = 1 ∧
      eff.outputAmount = 2000000 ∧
      eff.feeTransfer = (if 0 < (1000000000 * 100 / 10000 : Nat) then
          some (5, 1000000000 * 100 / 10000) else none) ∧
      eff.returnedBalance = 1000000000 - 1000000000 * 100 / 10000 ∧
      eff.intent.status = Contract.STATUS_COMPLETED ∧
      eff.intent.solver = some 9 :=
  (execute_intent_atomic _ 2000000 _ 10 9).1 rfl (by decide) (by decide)
    (by decide)

/-- C3 counterexample: `cancel_intent` checks ownership before status,
so a non-owner call on a COMPLETED (non-OPEN) intent aborts with
`EInvalidOwner`, not with `EInvalidStatus` as the claim states. -/
theorem cancel_nonopen_aborts_invalid_owner_cex :
    Contract.cancel_intent
      { owner := 1, inputBalance := 0, minOutputAmount := 3, deadline := 10,
        status := Contract.STATUS_COMPLETED, solver := some 4 } 2 =
      .error (.code Contract.EInvalidOwner) ∧
    Contract.EInvalidOwner ≠ Contract.EInvalidStatus ∧
    Contract.STATUS_COMPLETED ≠ Contract.STATUS_OPEN :=
  ⟨rfl, by decide, by decide⟩

/-- C3 (amended): every successful state-changing operation starts from
an OPEN intent and ends in one of the terminal states COMPLETED,
CANCELLED or EXPIRED — so no reachable transition leaves a terminal
state, re-opens an intent, or moves between terminal states.
`execute_intent` and `cleanup_expired` abort with `EInvalidStatus` on a
non-OPEN intent; `cancel_intent` checks ownership first, so on a
non-OPEN intent it aborts with `EInvalidStatus` for the owner and with
`EInvalidOwner` for anyone else. -/
theorem intent_status_monotone (i i' : Contract.Intent) :
    (Contract.Step i i' →
      i.status = Contract.STATUS_OPEN ∧
      (i'.status = Contract.STATUS_COMPLETED ∨
       i'.status = Contract.STATUS_CANCELLED ∨
       i'.status = Contract.STATUS_EXPIRED)) ∧
    (∀ v cfg now sender, i.status ≠ Contract.STATUS_OPEN →
      Contract.execute_intent i v cfg now sender =
        .error (.code Contract.EInvalidStatus)) ∧
    (∀ now sender, i.status ≠ Contract.STATUS_OPEN →
      Contract.cleanup_expired i now sender =
        .error (.code Contract.EInvalidStatus)) ∧
    (∀ sender, i.status ≠ Contract.STATUS_OPEN →
      Contract.cancel_intent i sender =
        .error (.code (if i.owner = sender then Contract.EInvalidStatus
          else Contract.EInvalidOwner))) := by
  refine ⟨?_, ?_, ?_, ?_⟩
  · intro hs
    cases hs with
    | execute v cfg now sender eff h =>
      simp only [Contract.execute_intent] at h
      split_ifs at h with a b c d <;>
        first
          | exact Except.noConfusion h
          | (injection h with h2; subst h2; exact ⟨not_not.mp a, Or.inl rfl⟩)
    | cancel sender eff h =>
      simp only [Contract.cancel_intent] at h
      split_ifs at h with a b <;>
        first
          | exact Except.noConfusion h
          | (injection h with h2; subst h2;
             exact ⟨not_not.mp b, Or.inr (Or.inl rfl)⟩)
    | cleanup now sender eff h =>
      simp only [Contract.cleanup_expired] at h
      split_ifs at h with a b <;>
        first
          | exact Except.noConfusion h
          | (injection h with h2; subst h2;
             exact ⟨not_not.mp a, Or.inr (Or.inr rfl)⟩)
  · intro v cfg now sender h
    simp only [Contract.execute_intent]
    rw [if_pos h]
  · intro now sender h
    simp only [Contract.cleanup_expired]
    rw [if_pos h]
  · intro sender h
    simp only [Contract.cancel_intent]
    by_cases ho : i.owner = sender
    · rw [if_neg (by simp [ho]), if_pos h, if_pos ho]
    · rw [if_pos ho, if_neg (by simp [ho])]

/-- Witness for the amended C3 theorem: the owner's own cancel on a
COMPLETED intent aborts with `EInvalidStatus`, while a stranger's
cancel on the same intent aborts with `EInvalidOwner`. -/
theorem intent_status_monotone_witness :
    Contract.cancel_intent
      { owner := 1, inputBalance := 0, minOutputAmount := 3, deadline := 10,
        status := Contract.STATUS_COMPLETED, solver := some 4 } 1 =
      .error (.code Contract.EInvalidStatus) ∧
    Contract.cancel_intent
      { owner := 1, inputBalance := 0, minOutputAmount := 3, deadline := 10,
        status := Contract.STATUS_COMPLETED, solver := some 4 } 7 =
      .error (.code Contract.EInvalidOwner) :=
  ⟨(intent_status_monotone
      { owner := 1, inputBalance := 0, minOutputAmount := 3, deadline := 10,
        status := Contract.STATUS_COMPLETED, solver := some 4 }
      { owner := 1, inputBalance := 0, minOutputAmount := 3, deadline := 10,
        status := Contract.STATUS_COMPLETED, solver := some 4 }).2.2.2 1
      (by decide),
   (intent_status_monotone
      { owner := 1, inputBalance := 0, minOutputAmount := 3, deadline := 10,
        status := Contract.STATUS_COMPLETED, solver := some 4 }
      { owner := 1, inputBalance := 0, minOutputAmount := 3, deadline := 10,
        status := Contract.STATUS_COMPLETED, solver := some 4 }).2.2.2 7
      (by decide)⟩

/-- C4: `cleanup_expired` succeeds exactly when the intent is OPEN and
the clock is strictly past the deadline; a non-OPEN intent aborts with
`EInvalidStatus`, an OPEN one at or before the deadline aborts with
`EIntentNotExpired`; on success the whole escrowed balance is
transferred to the intent owner (never to the caller), the status
becomes EXPIRED, and the `IntentExpired` event carries the owner, the
caller as `triggered_by`, and the full refund amount. -/
theorem cleanup_expired_correct (i : Contract.Intent) (now sender : Nat) :
    ((∃ eff, Contract.cleanup_expired i now sender = .ok eff) ↔
      (i.status = Contract.STATUS_OPEN ∧ i.deadline < now)) ∧
    (i.status ≠ Contract.STATUS_OPEN →
      Contract.cleanup_expired i now sender =
        .error (.code Contract.EInvalidStatus)) ∧
    (i.status = Contract.STATUS_OPEN → now ≤ i.deadline →
      Contract.cleanup_expired i now sender =
        .error (.code Contract.EIntentNotExpired)) ∧
    (∀ eff, Contract.cleanup_expired i now sender = .ok eff →
      eff.refundRecipient = i.owner ∧
      eff.refundAmount = i.inputBalance ∧
      eff.intent.status = Contract.STATUS_EXPIRED ∧
      eff.event.owner = i.owner ∧
      eff.event.triggeredBy = sender ∧
      eff.event.refundAmount = i.inputBalance) := by
  have hrun : i.status = Contract.STATUS_OPEN → i.deadline < now →
      Contract.cleanup_expired i now sender = .ok
        { intent :=
            { i with status := Contract.STATUS_EXPIRED, inputBalance := 0 }
          refundRecipient := i.owner
          refundAmount := i.inputBalance
          event :=
            { owner := i.owner
              triggeredBy := sender
              refundAmount := i.inputBalance } } := by
    intro h1 h2
    simp only [Contract.cleanup_expired]
    rw [if_neg (by simp [h1]), if_neg (by simp [h2])]
  have herr1 : i.status ≠ Contract.STATUS_OPEN →
      Contract.cleanup_expired i now sender =
        .error (.code Contract.EInvalidStatus) := by
    intro h
    simp only [Contract.cleanup_expired]
    rw [if_pos h]
  have herr2 : i.status = Contract.STATUS_OPEN → now ≤ i.deadline →
      Contract.cleanup_expired i now sender =
        .error (.code Contract.EIntentNotExpired) := by
    intro h1 h2
    simp only [Contract.cleanup_expired]
    rw [if_neg (by simp [h1]), if_pos (by omega)]
  refine ⟨⟨?_, ?_⟩, herr1, herr2, ?_⟩
  · rintro ⟨eff, heff⟩
    by_cases h1 : i.status = Contract.STATUS_OPEN
    · by_cases h2 : i.deadline < now
      · exact ⟨h1, h2⟩
      · rw [herr2 h1 (by omega)] at heff
        exact Except.noConfusion heff
    · rw [herr1 h1] at heff
      exact Except.noConfusion heff
  · rintro ⟨h1, h2⟩
    exact ⟨_, hrun h1 h2⟩
  · intro eff heff
    by_cases h1 : i.status = Contract.STATUS_OPEN
    · by_cases h2 : i.deadline < now
      · rw [hrun h1 h2] at heff
        injection heff with h3
        subst h3
        exact ⟨rfl, rfl, rfl, rfl, rfl, rfl⟩
      · rw [herr2 h1 (by omega)] at heff
        exact Except.noConfusion heff
    · rw [herr1 h1] at heff
      exact Except.noConfusion heff

/-- Witness for C4: cleanup of a COMPLETED intent aborts with
`EInvalidStatus`; cleanup of an OPEN intent before its deadline aborts
with `EIntentNotExpired`; and cleanup of an expired OPEN intent
succeeds. -/
theorem cleanup_expired_correct_witness :
    Contract.cleanup_expired
      { owner := 1, inputBalance := 5, minOutputAmount := 3, deadline := 10,
        status := Contract.STATUS_COMPLETED, solver := none } 11 2 =
      .error (.code Contract.EInvalidStatus) ∧
    Contract.cleanup_expired
      { owner := 1, inputBalance := 5, minOutputAmount := 3, deadline := 10,
        status := Contract.STATUS_OPEN, solver := none } 5 2 =
      .error (.code Contract.EIntentNotExpired) ∧
    (({ owner := 1, inputBalance := 5, minOutputAmount := 3, deadline := 10,
        status := Contract.STATUS_OPEN, solver := none } :
        Contract.Intent).status = Contract.STATUS_OPEN ∧ (10 : Nat) < 11) :=
  ⟨(cleanup_expired_correct _ 11 2).2.1 (by decide),
   (cleanup_expired_correct _ 5 2).2.2.1 rfl (by decide),
   (cleanup_expired_correct
      { owner := 1, inputBalance := 5, minOutputAmount := 3, deadline := 10,
        status := Contract.STATUS_OPEN, solver := none } 11 2).1.mp
     ⟨{ intent :=
          { owner := 1, inputBalance := 0, minOutputAmount := 3,
            deadline := 10, status := Contract.STATUS_EXPIRED, solver := none }
        refundRecipient := 1
        refundAmount := 5
        event := { owner := 1, triggeredBy := 2, refundAmount := 5 } }, rfl⟩⟩

/-- C10 counterexample: an intent that is OPEN, unexpired and amply
paid (none of the three abort conditions the claim enumerates holds),
with `paused = true`, still aborts — the u64 fee multiplication
overflows for a `2 ^ 63`-unit escrow at 300 bps — so `execute_intent`
does not abort exactly on the claim's three conditions. -/
theorem execute_intent_paused_overflow_cex :
    Contract.execute_intent
      { owner := 4, inputBalance := 2 ^ 63, minOutputAmount := 3,
        deadline := 10, status := Contract.STATUS_OPEN, solver := none }
      7 { feeBps := 300, feeRecipient := 9, paused := true } 5 8 =
      .error .arithmeticOverflow ∧
    Contract.STATUS_OPEN = Contract.STATUS_OPEN ∧ (5 : Nat) ≤ 10 ∧
    (3 : Nat) ≤ 7 :=
  ⟨rfl, rfl, by omega, by omega⟩

/-- C10 (amended): `execute_intent` never reads `paused` — its result
is identical for any value of the flag, so it succeeds on an
otherwise-valid intent even when `paused = true`.  When the u64 fee
multiplication does not overflow it aborts exactly when the status is
not OPEN (with `EInvalidStatus`), the clock is past the deadline
(`EIntentExpired`), or the output coin is below `min_output_amount`
(`EInsufficientOutput`). -/
theorem execute_intent_ignores_paused (i : Contract.Intent) (v : Nat)
    (cfg : Contract.ProtocolConfig) (p : Bool) (now sender : Nat) :
    (Contract.execute_intent i v { cfg with paused := p } now sender =
      Contract.execute_intent i v cfg now sender) ∧
    (i.inputBalance * cfg.feeBps < Contract.u64Size →
      ((∃ e, Contract.execute_intent i v cfg now sender = .error e) ↔
        (i.status ≠ Contract.STATUS_OPEN ∨ i.deadline < now ∨
          v < i.minOutputAmount))) ∧
    (i.status ≠ Contract.STATUS_OPEN →
      Contract.execute_intent i v cfg now sender =
        .error (.code Contract.EInvalidStatus)) ∧
    (i.status = Contract.STATUS_OPEN → i.deadline < now →
      Contract.execute_intent i v cfg now sender =
        .error (.code Contract.EIntentExpired)) ∧
    (i.status = Contract.STATUS_OPEN → now ≤ i.deadline →
      v < i.minOutputAmount →
      Contract.execute_intent i v cfg now sender =
        .error (.code Contract.EInsufficientOutput)) := by
  have herr1 : i.status ≠ Contract.STATUS_OPEN →
      Contract.execute_intent i v cfg now sender =
        .error (.code Contract.EInvalidStatus) := by
    intro h
    simp only [Contract.execute_intent]
    rw [if_pos h]
  have herr2 : i.status = Contract.STATUS_OPEN → i.deadline < now →
      Contract.execute_intent i v cfg now sender =
        .error (.code Contract.EIntentExpired) := by
    intro h1 h2
    simp only [Contract.execute_intent]
    rw [if_neg (by simp [h1]), if_pos (by omega)]
  have herr3 : i.status = Contract.STATUS_OPEN → now ≤ i.deadline →
      v < i.minOutputAmount →
      Contract.execute_intent i v cfg now sender =
        .error (.code Contract.EInsufficientOutput) := by
    intro h1 h2 h3
    simp only [Contract.execute_intent]
    rw [if_neg (by simp [h1]), if_neg (by simp [h2]), if_pos (by omega)]
  refine ⟨rfl, ?_, herr1, herr2, herr3⟩
  intro hovf
  constructor
  · rintro ⟨e, h⟩
    by_cases h1 : i.status = Contract.STATUS_OPEN
    · by_cases h2 : now ≤ i.deadline
      · by_cases h3 : i.minOutputAmount ≤ v
        · have hok : Contract.execute_intent i v cfg now sender =
              .ok { intent :=
                      { i with
                        status := Contract.STATUS_COMPLETED
                        solver := some sender
                        inputBalance := 0 }
                    returnedBalance := i.inputBalance -
                      i.inputBalance * cfg.feeBps / Contract.BPS_DENOMINATOR
                    outputRecipient := i.owner
                    outputAmount := v
                    feeTransfer :=
                      if 0 < i.inputBalance * cfg.feeBps /
                          Contract.BPS_DENOMINATOR then
                        some (cfg.feeRecipient,
                          i.inputBalance * cfg.feeBps /
                            Contract.BPS_DENOMINATOR)
                      else none
                    event :=
                      { solver := sender
                        inputAmount := i.inputBalance
                        outputAmount := v
                        feeAmount := i.inputBalance * cfg.feeBps /
                          Contract.BPS_DENOMINATOR
                        executionTime := now } } := by
            simp only [Contract.execute_intent]
            rw [if_neg (by simp [h1]), if_neg (by simp [h2]),
              if_neg (by simp [h3]), if_neg (not_le.mpr hovf)]
          rw [hok] at h
          exact Except.noConfusion h
        · exact Or.inr (Or.inr (by omega))
      · exact Or.inr (Or.inl (by omega))
    · exact Or.inl h1
  · intro h
    by_cases h1 : i.status = Contract.STATUS_OPEN
    · by_cases h2 : now ≤ i.deadline
      · have h3 : v < i.minOutputAmount := by
          rcases h with h | h | h
          · exact absurd h1 h
          · omega
          · exact h
        exact ⟨_, herr3 h1 h2 h3⟩
      · exact ⟨_, herr2 h1 (by omega)⟩
    · exact ⟨_, herr1 h1⟩

/-- Witness for the amended C10 theorem: with `paused = true` the
result on a valid intent is the same as with `paused = false`, and the
abort characterization holds at a concrete expired OPEN intent. -/
theorem execute_intent_ignores_paused_witness :
    (Contract.execute_intent
      { owner := 1, inputBalance := 1000, minOutputAmount := 3,
        deadline := 10, status := Contract.STATUS_OPEN, solver := none }
      7 { feeBps := 100, feeRecipient := 2, paused := true } 5 8 =
      Contract.execute_intent
      { owner := 1, inputBalance := 1000, minOutputAmount := 3,
        deadline := 10, status := Contract.STATUS_OPEN, solver := none }
      7 { feeBps := 100, feeRecipient := 2, paused := false } 5 8) ∧
    Contract.execute_intent
      { owner := 1, inputBalance := 1000, minOutputAmount := 3,
        deadline := 10, status := Contract.STATUS_OPEN, solver := none }
      7 { feeBps := 100, feeRecipient := 2, paused := false } 20 8 =
      .error (.code Contract.EIntentExpired) :=
  ⟨(execute_intent_ignores_paused _ 7
      { feeBps := 100, feeRecipient := 2, paused := false } true 5 8).1,
   (execute_intent_ignores_paused
      { owner := 1, inputBalance := 1000, minOutputAmount := 3,
        deadline := 10, status := Contract.STATUS_OPEN, solver := none }
      7 { feeBps := 100, feeRecipient := 2, paused := false } false 20
      8).2.2.2.1 rfl (by decide)⟩

/-- C2: for an intent the engine processes with a successful quote, the
profitability analysis computes `profit_raw = max(0, output_raw -
min_output_amount)` (truncated subtraction) and `profit_bps =
profit_raw * 10000 / input_amount` in integer arithmetic; when
`profit_bps < min_profit_bps` the pipeline takes the skip branch and
increments the skipped counter, issuing no execution, and an execution
is attempted only when `profit_bps ≥ min_profit_bps`. -/
theorem profitability_gate (quoteOut minOut inputAmount minProfitBps : Nat)
    (m : Solver.Metrics) (hpos : 0 < inputAmount) :
    ((Solver.analyzeProfitability quoteOut minOut inputAmount
        minProfitBps).profitBps = (quoteOut - minOut) * 10000 / inputAmount) ∧
    ((Solver.analyzeProfitability quoteOut minOut inputAmount
        minProfitBps).profitBps < minProfitBps →
      Solver.processIntentDecision true Solver.STATUS_OPEN false quoteOut
        minOut inputAmount minProfitBps = .skip ∧
      (Solver.metricsAfterDecision m
        (Solver.processIntentDecision true Solver.STATUS_OPEN false quoteOut
          minOut inputAmount minProfitBps)).skipped = m.skipped + 1) ∧
    (∀ found status expired,
      Solver.processIntentDecision found status expired quoteOut minOut
        inputAmount minProfitBps = .execute →
      minProfitBps ≤ (Solver.analyzeProfitability quoteOut minOut inputAmount
        minProfitBps).profitBps) := by
  have hraw : (if minOut < quoteOut then quoteOut - minOut else 0) =
      quoteOut - minOut := by
    split <;> omega
  refine ⟨?_, ?_, ?_⟩
  · simp only [Solver.analyzeProfitability]
    rw [hraw]
  · intro hlt
    have hskip : Solver.processIntentDecision true Solver.STATUS_OPEN false
        quoteOut minOut inputAmount minProfitBps = .skip := by
      simp only [Solver.processIntentDecision]
      rw [if_neg (by simp), if_neg (by simp [Solver.STATUS_OPEN]),
        if_neg (by simp), if_neg]
      simp only [Solver.analyzeProfitability, decide_eq_true_eq]
      simp only [Solver.analyzeProfitability] at hlt
      omega
    refine ⟨hskip, ?_⟩
    rw [hskip]
    simp [Solver.metricsAfterDecision]
  · intro found status expired h
    simp only [Solver.processIntentDecision] at h
    split_ifs at h with a b c d <;>
      first
        | exact Solver.ProcessAction.noConfusion h
        | (simp only [Solver.analyzeProfitability, decide_eq_true_eq] at d ⊢
           exact d)

/-- Witness for C2, at the spec's skip scenario S5: quote 10_000_400
against `min_output` 10_000_000 on a 1_000_000_000-unit input gives
`profit_bps = 0 < 50`, so the intent is skipped and the counter
increments. -/
theorem profitability_gate_witness :
    ((Solver.analyzeProfitability 10000400 10000000 1000000000 50).profitBps =
      (10000400 - 10000000) * 10000 / 1000000000) ∧
    (Solver.processIntentDecision true Solver.STATUS_OPEN false 10000400
      10000000 1000000000 50 = .skip ∧
    (Solver.metricsAfterDecision { processed := 3, skipped := 7 }
      (Solver.processIntentDecision true Solver.STATUS_OPEN false 10000400
        10000000 1000000000 50)).skipped = 7 + 1) :=
  ⟨(profitability_gate 10000400 10000000 1000000000 50
      { processed := 3, skipped := 7 } (by decide)).1,
   (profitability_gate 10000400 10000000 1000000000 50
      { processed := 3, skipped := 7 } (by decide)).2.1 (by decide)⟩

/-- C5 counterexample: the engine path gathers only up to
`min_output_amount` and passes the merged coin whole.  With a single
100-unit coin and `min_output_amount = 100` the engine prepares a
100-unit payment — below the claimed `min + 5%` threshold of 105, at
which the claimed preparation fails — and with coins `[100, 50]` and
`min_output_amount = 120` the engine pays all 150 gathered units while
the claimed preparation would split out exactly 126. -/
theorem execute_coin_prep_cex :
    Solver.engineExecutePrep [100] 100 = .ok 100 ∧
    Solver.claimedExecutePrep [100] 100 = .error "Insufficient balance" ∧
    100 < Solver.handlerOutputToProvide 100 ∧
    Solver.engineExecutePrep [100, 50] 120 = .ok 150 ∧
    Solver.claimedExecutePrep [100, 50] 120 = .ok 126 ∧
    (150 : Nat) ≠ 126 :=
  ⟨rfl, rfl, by decide, rfl, rfl, by decide⟩

/-- C5 (amended): the background engine path
(`SolverEngine.executeIntent`) gathers coins only until their total
covers `min_output_amount` — no 5% buffer — and passes the whole merged
coin as payment, so the payment equals the gathered total (at least
`min_output_amount`, possibly more, never split down); the HTTP
`POST /api/intent/execute` handler computes the payment as
`min_output_amount + min_output_amount * 5 / 100`, requires the total
of all the solver's coins to cover it, merges them all, and splits out
exactly that amount. -/
theorem execute_coin_prep_characterization (coins : List Nat) (minOut : Nat) :
    (∀ p, Solver.engineExecutePrep coins minOut = .ok p →
      minOut ≤ p ∧ p = (Solver.selectCoinsAux coins minOut 0 []).2) ∧
    (∀ p, Solver.handlerExecutePrep coins minOut = .ok p →
      p = Solver.handlerOutputToProvide minOut ∧ p ≤ coins.sum ∧
      coins ≠ []) := by
  constructor
  · intro p h
    simp only [Solver.engineExecutePrep, Solver.getCoins] at h
    rcases hr : Solver.selectCoinsAux coins minOut 0 [] with ⟨sel, tot⟩
    rw [hr] at h
    split_ifs at h with hlt
    have h2 : (if sel.isEmpty = true then
        (Except.error "Insufficient balance for output token" :
          Except String Nat) else .ok tot) = .ok p := h
    split_ifs at h2 with he
    injection h2 with hp
    subst hp
    exact ⟨by omega, rfl⟩
  · intro p h
    by_cases hnil : coins = []
    · subst hnil
      simp [Solver.handlerExecutePrep] at h
    · have hne : coins.isEmpty = false := by
        cases coins with
        | nil => exact absurd rfl hnil
        | cons a l => rfl
      simp only [Solver.handlerExecutePrep, hne, Bool.false_eq_true,
        if_false] at h
      split_ifs at h with hlt
      injection h with hp
      subst hp
      exact ⟨rfl, by omega, hnil⟩

/-- Helper: the sell walk consumes nothing when no input remains. -/
theorem sellWalk_nonpos (bids : List Solver.Level) (x : ℚ) (hx : x ≤ 0) :
    Solver.sellWalk bids x = 0 := by
  cases bids with
  | nil => rfl
  | cons b tl => simp [Solver.sellWalk, hx]

/-- Helper: the buy walk consumes nothing when no input remains. -/
theorem buyWalk_nonpos (asks : List Solver.Level) (x : ℚ) (hx : x ≤ 0) :
    Solver.buyWalk asks x = 0 := by
  cases asks with
  | nil => rfl
  | cons a tl => simp [Solver.buyWalk, hx]

/-- Helper: the sell walk output is nonnegative when all levels have
nonnegative price and quantity. -/
theorem sellWalk_nonneg (bids : List Solver.Level) (x : ℚ)
    (h : ∀ l ∈ bids, 0 ≤ l.price ∧ 0 ≤ l.quantity) :
    0 ≤ Solver.sellWalk bids x := by
  induction bids generalizing x with
  | nil => exact le_refl 0
  | cons b tl ih =>
    simp only [Solver.sellWalk]
    split_ifs with hx
    · exact le_refl 0
    · have hb := h b (List.mem_cons_self b tl)
      have h1 : 0 ≤ min x b.quantity :=
        le_min_iff.mpr ⟨by linarith [not_le.mp hx], hb.2⟩
      exact add_nonneg (mul_nonneg h1 hb.1)
        (ih _ fun l hl => h l (List.mem_cons_of_mem b hl))

/-- Helper: the buy walk output is nonnegative when all levels have
positive price and nonnegative quantity. -/
theorem buyWalk_nonneg (asks : List Solver.Level) (x : ℚ)
    (h : ∀ l ∈ asks, 0 < l.price ∧ 0 ≤ l.quantity) :
    0 ≤ Solver.buyWalk asks x := by
  induction asks generalizing x with
  | nil => exact le_refl 0
  | cons a tl ih =>
    simp only [Solver.buyWalk]
    split_ifs with hx
    · exact le_refl 0
    · have ha := h a (List.mem_cons_self a tl)
      have h1 : 0 ≤ min (x / a.price) a.quantity :=
        le_min_iff.mpr
          ⟨div_nonneg (by linarith [not_le.mp hx]) ha.1.le, ha.2⟩
      exact add_nonneg h1 (ih _ fun l hl => h l (List.mem_cons_of_mem a hl))

/-- Helper: the sell walk output is monotone in the input size. -/
theorem sellWalk_mono (bids : List Solver.Level) (x y : ℚ)
    (h : ∀ l ∈ bids, 0 ≤ l.price ∧ 0 ≤ l.quantity) (hxy : x ≤ y) :
    Solver.sellWalk bids x ≤ Solver.sellWalk bids y := by
  induction bids generalizing x y with
  | nil => exact le_refl 0
  | cons b tl ih =>
    have hb := h b (List.mem_cons_self b tl)
    have htl : ∀ l ∈ tl, 0 ≤ l.price ∧ 0 ≤ l.quantity :=
      fun l hl => h l (List.mem_cons_of_mem b hl)
    by_cases hx : x ≤ 0
    · rw [sellWalk_nonpos _ _ hx]
      exact sellWalk_nonneg _ _ h
    · have hy : ¬ y ≤ 0 := fun hy => hx (le_trans hxy hy)
      simp only [Solver.sellWalk]
      rw [if_neg hx, if_neg hy]
      have hmin : min x b.quantity ≤ min y b.quantity :=
        min_le_min hxy le_rfl
      have hrem : x - min x b.quantity ≤ y - min y b.quantity := by
        rcases le_total x b.quantity with hc | hc
        · rw [min_eq_left hc]
          have h0 : min y b.quantity ≤ y := min_le_left y b.quantity
          linarith
        · rw [min_eq_right hc, min_eq_right (by linarith : b.quantity ≤ y)]
          linarith
      exact add_le_add (mul_le_mul_of_nonneg_right hmin hb.1)
        (ih _ _ htl hrem)

/-- Helper: the buy walk output is monotone in the input size. -/
theorem buyWalk_mono (asks : List Solver.Level) (x y : ℚ)
    (h : ∀ l ∈ asks, 0 < l.price ∧ 0 ≤ l.quantity) (hxy : x ≤ y) :
    Solver.buyWalk asks x ≤ Solver.buyWalk asks y := by
  induction asks generalizing x y with
  | nil => exact le_refl 0
  | cons a tl ih =>
    have ha := h a (List.mem_cons_self a tl)
    have htl : ∀ l ∈ tl, 0 < l.price ∧ 0 ≤ l.quantity :=
      fun l hl => h l (List.mem_cons_of_mem a hl)
    by_cases hx : x ≤ 0
    · rw [buyWalk_nonpos _ _ hx]
      exact buyWalk_nonneg _ _ h
    · have hy : ¬ y ≤ 0 := fun hy => hx (le_trans hxy hy)
      simp only [Solver.buyWalk]
      rw [if_neg hx, if_neg hy]
      have hdiv : x / a.price ≤ y / a.price :=
        (div_le_div_iff_of_pos_right ha.1).mpr hxy
      have hmin : min (x / a.price) a.quantity ≤
          min (y / a.price) a.quantity := min_le_min hdiv le_rfl
      have hrem : x - min (x / a.price) a.quantity * a.price ≤
          y - min (y / a.price) a.quantity * a.price := by
        rcases le_total (x / a.price) a.quantity with hc | hc
        · rw [min_eq_left hc, div_mul_cancel₀ _ (ne_of_gt ha.1)]
          have h0 : min (y / a.price) a.quantity * a.price ≤ y := by
            calc min (y / a.price) a.quantity * a.price ≤
                (y / a.price) * a.price :=
                  mul_le_mul_of_nonneg_right
                    (min_le_left (y / a.price) a.quantity) ha.1.le
              _ = y := div_mul_cancel₀ _ (ne_of_gt ha.1)
          linarith
        · have hcy : a.quantity ≤ y / a.price := le_trans hc hdiv
          rw [min_eq_right hc, min_eq_right hcy]
          linarith
      exact add_le_add hmin (ih _ _ htl hrem)

/-- Helper: the sell walk with early exit computes the same output as
the exit-free fold over all levels (generalized over the fold
accumulator). -/
theorem sellFold_go (bids : List Solver.Level) (x acc : ℚ) (hx : 0 ≤ x)
    (hq : ∀ l ∈ bids, 0 ≤ l.quantity) :
    (bids.foldl
      (fun st lvl =>
        let fill := min st.1 lvl.quantity
        (st.1 - fill, st.2 + fill * lvl.price)) (x, acc)).2 =
      acc + Solver.sellWalk bids x := by
  induction bids generalizing x acc with
  | nil => simp [Solver.sellWalk]
  | cons b tl ih =>
    have hb := hq b (List.mem_cons_self b tl)
    have htl : ∀ l ∈ tl, 0 ≤ l.quantity :=
      fun l hl => hq l (List.mem_cons_of_mem b hl)
    simp only [List.foldl_cons, Solver.sellWalk]
    split_ifs with hxle
    · have hx0 : x = 0 := le_antisymm hxle hx
      subst hx0
      rw [min_eq_left hb, sub_zero, ih _ _ le_rfl htl,
        sellWalk_nonpos tl _ le_rfl]
      ring
    · have hfill : min x b.quantity ≤ x := min_le_left x b.quantity
      rw [ih _ _ (by linarith) htl]
      ring

/-- Helper: evaluated form of the quoter in the sell-base direction on
nonempty books. -/
theorem getSwapQuote_sell_eq (b0 : Solver.Level) (btl : List Solver.Level)
    (a0 : Solver.Level) (atl : List Solver.Level) (pool : Solver.Pool)
    (x : ℚ) :
    Solver.getSwapQuote (b0 :: btl) (a0 :: atl) pool true x =
      some
        { outputRaw :=
            ⌊Solver.sellWalk (b0 :: btl) (x / pool.baseScalar) *
              pool.quoteScalar⌋
          priceImpact :=
            if 0 < b0.price then
              (b0.price - Solver.endPriceOf (b0 :: btl) b0.price) /
                b0.price * 100
            else 0
          midPrice := (b0.price + a0.price) / 2
          bestBid := b0.price
          bestAsk := a0.price } := rfl

/-- Helper: evaluated form of the quoter in the buy-base direction on
nonempty books. -/
theorem getSwapQuote_buy_eq (b0 : Solver.Level) (btl : List Solver.Level)
    (a0 : Solver.Level) (atl : List Solver.Level) (pool : Solver.Pool)
    (x : ℚ) :
    Solver.getSwapQuote (b0 :: btl) (a0 :: atl) pool false x =
      some
        { outputRaw :=
            ⌊Solver.buyWalk (a0 :: atl) (x / pool.quoteScalar) *
              pool.baseScalar⌋
          priceImpact :=
            if 0 < a0.price then
              (Solver.endPriceOf (a0 :: atl) a0.price - a0.price) /
                a0.price * 100
            else 0
          midPrice := (b0.price + a0.price) / 2
          bestBid := b0.price
          bestAsk := a0.price } := rfl

/-- Helper: evaluated form of the market-sell simulation on a nonempty
bid list. -/
theorem simulateMarketSell_cons_eq (b0 : Solver.Level)
    (tl : List Solver.Level) (x : ℚ) :
    Solver.simulateMarketSell (b0 :: tl) x =
      some (Solver.sellWalk (b0 :: tl) x,
        if 0 < b0.price then
          (b0.price - Solver.endPriceOf (b0 :: tl) b0.price) / b0.price * 100
        else 0) := rfl

/-- C6 counterexample: a two-level bid book (prices 2 and 1) quoted for
zero input returns `output_raw = 0` but `price_impact = 50`, not 0 —
the impact is computed from the first and last book levels regardless
of the input. -/
theorem quote_zero_input_cex :
    Solver.getSwapQuote [⟨2, 1⟩, ⟨1, 1⟩] [⟨3, 1⟩] ⟨1, 1⟩ true 0 =
      some { outputRaw := 0, priceImpact := 50, midPrice := 5/2,
             bestBid := 2, bestAsk := 3 } ∧
    (50 : ℚ) ≠ 0 := by
  constructor
  · norm_num [Solver.getSwapQuote, Solver.simulateMarketSell,
      Solver.sellWalk, Solver.endPriceOf, Solver.SwapQuote.mk.injEq]
  · norm_num

/-- C6 (amended): on a pool with at least one bid and one ask,
`quote(A→B, 0)` returns `output_raw = 0`; its `price_impact`, however,
is whatever the walked side's first-to-last-level gap gives — the same
value as for any other input amount — and is 0 only when that gap is
zero (e.g. a single-level book). -/
theorem quote_zero_input (bids asks : List Solver.Level)
    (pool : Solver.Pool) (isSellBase : Bool) (x : ℚ)
    (hb : bids ≠ []) (ha : asks ≠ []) :
    ∃ q0 qx, Solver.getSwapQuote bids asks pool isSellBase 0 = some q0 ∧
      Solver.getSwapQuote bids asks pool isSellBase x = some qx ∧
      q0.outputRaw = 0 ∧ q0.priceImpact = qx.priceImpact := by
  cases bids with
  | nil => exact absurd rfl hb
  | cons b0 btl =>
    cases asks with
    | nil => exact absurd rfl ha
    | cons a0 atl =>
      cases isSellBase with
      | true =>
        rw [getSwapQuote_sell_eq, getSwapQuote_sell_eq]
        refine ⟨_, _, rfl, rfl, ?_, rfl⟩
        show ⌊Solver.sellWalk (b0 :: btl) (0 / pool.baseScalar) *
          pool.quoteScalar⌋ = 0
        rw [zero_div, sellWalk_nonpos _ _ le_rfl, zero_mul]
        exact Int.floor_zero
      | false =>
        rw [getSwapQuote_buy_eq, getSwapQuote_buy_eq]
        refine ⟨_, _, rfl, rfl, ?_, rfl⟩
        show ⌊Solver.buyWalk (a0 :: atl) (0 / pool.quoteScalar) *
          pool.baseScalar⌋ = 0
        rw [zero_div, buyWalk_nonpos _ _ le_rfl, zero_mul]
        exact Int.floor_zero

/-- Witness for the amended C6 theorem at a concrete two-level book. -/
theorem quote_zero_input_witness :
    ∃ q0 qx,
      Solver.getSwapQuote [⟨2, 1⟩, ⟨1, 1⟩] [⟨3, 1⟩] ⟨1, 1⟩ true 0 =
        some q0 ∧
      Solver.getSwapQuote [⟨2, 1⟩, ⟨1, 1⟩] [⟨3, 1⟩] ⟨1, 1⟩ true 7 =
        some qx ∧
      q0.outputRaw = 0 ∧ q0.priceImpact = qx.priceImpact :=
  quote_zero_input [⟨2, 1⟩, ⟨1, 1⟩] [⟨3, 1⟩] ⟨1, 1⟩ true 7 (by simp)
    (by simp)

/-- C7 counterexample: with bids at prices 2 (quantity 1) and 1
(quantity 1) and input 1/2, only the first level is filled, so the
claim's formula `(bids[0].price - last_filled_price) / bids[0].price`
gives 0, but the code returns 50: its `endPrice` is the last level of
the whole bid list (and the ratio is scaled by 100). -/
theorem sell_impact_last_filled_cex :
    Solver.simulateMarketSell [⟨2, 1⟩, ⟨1, 1⟩] (1/2) = some (1, 50) ∧
    Solver.claimedSellImpact [⟨2, 1⟩, ⟨1, 1⟩] (1/2) = 0 ∧
    (50 : ℚ) ≠ 0 := by
  refine ⟨?_, ?_, by norm_num⟩
  · norm_num [Solver.simulateMarketSell, Solver.sellWalk, Solver.endPriceOf]
  · norm_num [Solver.claimedSellImpact, Solver.lastFilledPrice]

/-- C7 (amended): on a nonempty descending bid list with nonnegative
quantities and nonnegative input, the market-sell simulation consumes
`min(remaining, quantity)` at every level, accumulating
`consumed * price` (equivalently, the early-exit walk equals the
exit-free fold over all levels), and the returned price impact is
`(bids[0].price - endPrice) / bids[0].price * 100` where `endPrice` is
the price of the final level of the whole list — regardless of how many
levels were actually filled — with a fallback to `bids[0].price` when
that price is 0. -/
theorem simulateMarketSell_walk_impact (b0 : Solver.Level)
    (tl : List Solver.Level) (x : ℚ) (hx : 0 ≤ x)
    (hq : ∀ l ∈ b0 :: tl, 0 ≤ l.quantity) :
    Solver.simulateMarketSell (b0 :: tl) x =
      some ((Solver.sellFoldState (b0 :: tl) x).2,
        if 0 < b0.price then
          (b0.price - Solver.endPriceOf (b0 :: tl) b0.price) / b0.price * 100
        else 0) := by
  rw [simulateMarketSell_cons_eq]
  have h2 : (Solver.sellFoldState (b0 :: tl) x).2 =
      Solver.sellWalk (b0 :: tl) x := by
    simp only [Solver.sellFoldState]
    rw [sellFold_go _ _ _ hx hq, zero_add]
  rw [h2]

/-- Witness for the amended C7 theorem at a concrete two-level book
and input 3. -/
theorem simulateMarketSell_walk_impact_witness :
    Solver.simulateMarketSell [⟨2, 1⟩, ⟨1, 1⟩] 3 =
      some ((Solver.sellFoldState [⟨2, 1⟩, ⟨1, 1⟩] 3).2,
        if 0 < (⟨2, 1⟩ : Solver.Level).price then
          ((⟨2, 1⟩ : Solver.Level).price -
            Solver.endPriceOf [⟨2, 1⟩, ⟨1, 1⟩]
              (⟨2, 1⟩ : Solver.Level).price) /
            (⟨2, 1⟩ : Solver.Level).price * 100
        else 0) :=
  simulateMarketSell_walk_impact ⟨2, 1⟩ [⟨1, 1⟩] 3 (by norm_num)
    (by
      intro l hl
      simp only [List.mem_cons, List.mem_singleton] at hl
      rcases hl with rfl | rfl | hl
      · norm_num
      · norm_num
      · exact absurd hl (List.not_mem_nil l))

/-- C8: quoting is monotone in input size — for a fixed Level-2
snapshot (all levels with positive price and quantity, as the Level-2
parser guarantees), fixed pool scalars and fixed direction,
`quote(A→B, x).output_raw ≤ quote(A→B, x + δ).output_raw` for every
`δ ≥ 0`. -/
theorem quote_output_monotone (bids asks : List Solver.Level)
    (pool : Solver.Pool) (isSellBase : Bool) (x δ : ℚ)
    (hb : ∀ l ∈ bids, 0 < l.price ∧ 0 < l.quantity)
    (ha : ∀ l ∈ asks, 0 < l.price ∧ 0 < l.quantity)
    (hbs : 0 < pool.baseScalar) (hqs : 0 < pool.quoteScalar)
    (hδ : 0 ≤ δ) :
    ∀ q1 q2, Solver.getSwapQuote bids asks pool isSellBase x = some q1 →
      Solver.getSwapQuote bids asks pool isSellBase (x + δ) = some q2 →
      q1.outputRaw ≤ q2.outputRaw := by
  intro q1 q2 h1 h2
  cases bids with
  | nil => simp [Solver.getSwapQuote] at h1
  | cons b0 btl =>
    cases asks with
    | nil => simp [Solver.getSwapQuote] at h1
    | cons a0 atl =>
      cases isSellBase with
      | true =>
        rw [getSwapQuote_sell_eq] at h1 h2
        injection h1 with h1
        injection h2 with h2
        subst h1
        subst h2
        apply Int.floor_le_floor
        apply mul_le_mul_of_nonneg_right _ hqs.le
        apply sellWalk_mono _ _ _
          (fun l hl => ⟨(hb l hl).1.le, (hb l hl).2.le⟩)
        exact (div_le_div_iff_of_pos_right hbs).mpr (by linarith)
      | false =>
        rw [getSwapQuote_buy_eq] at h1 h2
        injection h1 with h1
        injection h2 with h2
        subst h1
        subst h2
        apply Int.floor_le_floor
        apply mul_le_mul_of_nonneg_right _ hbs.le
        apply buyWalk_mono _ _ _
          (fun l hl => ⟨(ha l hl).1, (ha l hl).2.le⟩)
        exact (div_le_div_iff_of_pos_right hqs).mpr (by linarith)

/-- Witness for C8 at a concrete two-level bid book: the quote for
input 1 yields 2 raw units of output, the quote for input 2 yields 3,
and 2 ≤ 3. -/
theorem quote_output_monotone_witness :
    ({ outputRaw := 2, priceImpact := 50, midPrice := 5/2, bestBid := 2,
       bestAsk := 3 } : Solver.SwapQuote).outputRaw ≤
    ({ outputRaw := 3, priceImpact := 50, midPrice := 5/2, bestBid := 2,
       bestAsk := 3 } : Solver.SwapQuote).outputRaw :=
  quote_output_monotone [⟨2, 1⟩, ⟨1, 1⟩] [⟨3, 1⟩] ⟨1, 1⟩ true 1 1
    (by
      intro l hl
      simp only [List.mem_cons, List.mem_singleton] at hl
      rcases hl with rfl | rfl | hl
      · constructor <;> norm_num
      · constructor <;> norm_num
      · exact absurd hl (List.not_mem_nil l))
    (by
      intro l hl
      simp only [List.mem_cons, List.mem_singleton] at hl
      rcases hl with rfl | hl
      · constructor <;> norm_num
      · exact absurd hl (List.not_mem_nil l))
    (by norm_num) (by norm_num) (by norm_num) _ _
    (by norm_num [Solver.getSwapQuote, Solver.simulateMarketSell,
      Solver.sellWalk, Solver.endPriceOf, Solver.SwapQuote.mk.injEq])
    (by norm_num [Solver.getSwapQuote, Solver.simulateMarketSell,
      Solver.sellWalk, Solver.endPriceOf, Solver.SwapQuote.mk.injEq])

/-- Witness for the amended C5 theorem: the engine pays the whole
100-unit gathered total for `min_output_amount = 100`, and the handler
pays exactly 105 (= 100 + 5%) out of coins `[100, 50]`. -/
theorem execute_coin_prep_characterization_witness :
    (100 ≤ 100 ∧ (100 : Nat) = (Solver.selectCoinsAux [100] 100 0 []).2) ∧
    ((105 : Nat) = Solver.handlerOutputToProvide 100 ∧
      105 ≤ ([100, 50] : List Nat).sum ∧ ([100, 50] : List Nat) ≠ []) :=
  ⟨(execute_coin_prep_characterization [100] 100).1 100 rfl,
   (execute_coin_prep_characterization [100, 50] 100).2 105 rfl⟩

/-- Helper: `ToInt32` is the identity on naturals below `2 ^ 31`. -/
theorem toInt32_ofNat_lt (m : Nat) (h : m < 2 ^ 31) :
    Bcs.toInt32 (m : Int) = m := by
  simp only [Bcs.toInt32]
  have h1 : (m : Int) % 2 ^ 32 = m :=
    Int.emod_eq_of_lt (by positivity)
      (by exact_mod_cast lt_trans h (by norm_num))
  rw [h1, if_pos (by exact_mod_cast h)]

/-- Helper: `ToUint32` is the identity on naturals below `2 ^ 32`. -/
theorem toUint32_ofNat_lt (m : Nat) (h : m < 2 ^ 32) :
    Bcs.toUint32 (m : Int) = m := by
  simp only [Bcs.toUint32]
  rw [Int.emod_eq_of_lt (by positivity) (by exact_mod_cast h)]
  exact Int.toNat_natCast m

/-- Helper: the JS 32-bit shift is an exact multiplication when the
result stays below `2 ^ 31`. -/
theorem jsShl32_small (c s : Nat) (hs : s < 32) (h : c * 2 ^ s < 2 ^ 31)
    (hc : c < 2 ^ 32) :
    Bcs.jsShl32 (c : Int) s = ((c * 2 ^ s : Nat) : Int) := by
  simp only [Bcs.jsShl32]
  rw [toUint32_ofNat_lt c hc, Nat.mod_eq_of_lt hs]
  exact toInt32_ofNat_lt _ h

/-- Helper: the JS 32-bit or adds a value below `2 ^ k` to a multiple
of `2 ^ k` exactly, when the sum stays below `2 ^ 31`. -/
theorem jsOr32_add (a b k : Nat) (ha : a < 2 ^ k)
    (hsum : 2 ^ k * b + a < 2 ^ 31) :
    Bcs.jsOr32 (a : Int) ((2 ^ k * b : Nat) : Int) =
      ((2 ^ k * b + a : Nat) : Int) := by
  simp only [Bcs.jsOr32]
  rw [toUint32_ofNat_lt a (by omega), toUint32_ofNat_lt _ (by omega)]
  rw [Nat.lor_comm, ← Nat.mul_add_lt_is_or ha b]
  exact toInt32_ofNat_lt _ hsum

/-- Helper: reading a canonical ULEB128 encoding accumulates exactly
the encoded value, as long as everything stays below `2 ^ 31` (so the
decoder's JS 32-bit arithmetic is exact). -/
theorem readUleb_encode (n : Nat) : ∀ (k acc : Nat) (rest : List Nat),
    acc < 2 ^ (7 * k) → 2 ^ (7 * k) * n + acc < 2 ^ 31 → 7 * k ≤ 28 →
    Bcs.readUleb (Bcs.ulebEncode n ++ rest) (acc : Int) (7 * k) =
      (((2 ^ (7 * k) * n + acc : Nat) : Int), rest) := by
  induction n using Nat.strong_induction_on with
  | _ n ih =>
    intro k acc rest hacc hsum hk
    rw [Bcs.ulebEncode]
    split_ifs with h128
    · rw [List.singleton_append]
      simp only [Bcs.readUleb]
      rw [Nat.mod_eq_of_lt h128]
      have hshl : Bcs.jsShl32 (n : Int) (7 * k) =
          ((2 ^ (7 * k) * n : Nat) : Int) := by
        rw [jsShl32_small n (7 * k) (by omega)
          (by rw [Nat.mul_comm]; omega) (by omega)]
        congr 1
        exact Nat.mul_comm _ _
      rw [hshl, jsOr32_add acc n (7 * k) hacc hsum, if_pos h128]
    · rw [List.cons_append]
      simp only [Bcs.readUleb]
      have hb : (n % 128 + 128) % 128 = n % 128 := by omega
      rw [hb]
      have hmlt : n % 128 * 2 ^ (7 * k) < 2 ^ 31 := by
        have := Nat.mod_le n 128
        calc n % 128 * 2 ^ (7 * k) ≤ n * 2 ^ (7 * k) :=
              Nat.mul_le_mul_right _ this
          _ = 2 ^ (7 * k) * n := Nat.mul_comm _ _
          _ ≤ 2 ^ (7 * k) * n + acc := Nat.le_add_right _ _
          _ < 2 ^ 31 := hsum
      have hshl : Bcs.jsShl32 ((n % 128 : Nat) : Int) (7 * k) =
          ((2 ^ (7 * k) * (n % 128) : Nat) : Int) := by
        rw [jsShl32_small (n % 128) (7 * k) (by omega) hmlt (by omega)]
        congr 1
        exact Nat.mul_comm _ _
      have hsum2 : 2 ^ (7 * k) * (n % 128) + acc < 2 ^ 31 := by
        have h1 : 2 ^ (7 * k) * (n % 128) ≤ 2 ^ (7 * k) * n :=
          Nat.mul_le_mul_left _ (Nat.mod_le n 128)
        omega
      rw [hshl, jsOr32_add acc (n % 128) (7 * k) hacc hsum2,
        if_neg (by omega : ¬ n % 128 + 128 < 128)]
      have hpow : (2 : Nat) ^ (7 * k + 7) = 2 ^ (7 * k) * 128 := by
        rw [pow_add]
        norm_num
      have hklt : 7 * (k + 1) ≤ 28 := by
        have hp : (2 : Nat) ^ (7 * k + 7) < 2 ^ 31 := by
          calc (2 : Nat) ^ (7 * k + 7) = 2 ^ (7 * k) * 128 := hpow
            _ ≤ 2 ^ (7 * k) * n := Nat.mul_le_mul_left _ (by omega)
            _ ≤ 2 ^ (7 * k) * n + acc := Nat.le_add_right _ _
            _ < 2 ^ 31 := hsum
        have := (Nat.pow_lt_pow_iff_right (a := 2) (by norm_num)).mp hp
        omega
      have hacc2 : 2 ^ (7 * k) * (n % 128) + acc < 2 ^ (7 * (k + 1)) := by
        have hmod : n % 128 < 128 := Nat.mod_lt _ (by norm_num)
        have h1 : 2 ^ (7 * k) * (n % 128) ≤ 2 ^ (7 * k) * 127 :=
          Nat.mul_le_mul_left _ (by omega)
        have h2 : (2 : Nat) ^ (7 * (k + 1)) = 2 ^ (7 * k) * 128 := by
          rw [show 7 * (k + 1) = 7 * k + 7 by ring]
          exact hpow
        omega
      have hsum3 : 2 ^ (7 * (k + 1)) * (n / 128) +
          (2 ^ (7 * k) * (n % 128) + acc) < 2 ^ 31 := by
        have h2 : (2 : Nat) ^ (7 * (k + 1)) = 2 ^ (7 * k) * 128 := by
          rw [show 7 * (k + 1) = 7 * k + 7 by ring]
          exact hpow
        have h3 : 2 ^ (7 * (k + 1)) * (n / 128) +
            (2 ^ (7 * k) * (n % 128) + acc) = 2 ^ (7 * k) * n + acc := by
          rw [h2]
          have h4 := Nat.div_add_mod n 128
          calc 2 ^ (7 * k) * 128 * (n / 128) +
              (2 ^ (7 * k) * (n % 128) + acc) =
              2 ^ (7 * k) * (128 * (n / 128) + n % 128) + acc := by ring
            _ = 2 ^ (7 * k) * n + acc := by rw [h4]
        omega
      have hrec := ih (n / 128) (Nat.div_lt_self (by omega) (by norm_num))
        (k + 1) (2 ^ (7 * k) * (n % 128) + acc) rest hacc2 hsum3 hklt
      have harith : 2 ^ (7 * (k + 1)) * (n / 128) +
          (2 ^ (7 * k) * (n % 128) + acc) = 2 ^ (7 * k) * n + acc := by
        have h4 := Nat.div_add_mod n 128
        have h2 : (2 : Nat) ^ (7 * (k + 1)) = 2 ^ (7 * k) * 128 := by
          rw [show 7 * (k + 1) = 7 * k + 7 by ring]
          exact hpow
        calc 2 ^ (7 * (k + 1)) * (n / 128) +
            (2 ^ (7 * k) * (n % 128) + acc) =
            2 ^ (7 * k) * (128 * (n / 128) + n % 128) + acc := by
              rw [h2]; ring
          _ = 2 ^ (7 * k) * n + acc := by rw [h4]
      rw [show 7 * k + 7 = 7 * (k + 1) by ring, hrec, harith]

set_option maxRecDepth 4000 in
/-- Helper: the ULEB128 length prefix of a canonical encoding below
`2 ^ 31` is read back exactly, leaving the payload untouched. -/
theorem readUleb_top (n : Nat) (rest : List Nat) (h : n < 2 ^ 31) :
    Bcs.readUleb (Bcs.ulebEncode n ++ rest) 0 0 = ((n : Int), rest) := by
  have h2 : 2 ^ (7 * 0) * n + 0 < 2 ^ 31 := by
    rw [Nat.mul_zero, Nat.pow_zero, Nat.one_mul, Nat.add_zero]
    exact h
  have := readUleb_encode n 0 0 rest
    (by rw [Nat.mul_zero, Nat.pow_zero]; omega) h2 (by omega)
  rw [Nat.mul_zero, Nat.cast_zero] at this
  rw [this]
  norm_num

/-- Helper: the little-endian value of the `k`-byte encoding of `v` is
`v` modulo `256 ^ k`. -/
theorem le8Value_leBytes (k : Nat) : ∀ v : Nat,
    Bcs.le8Value (Bcs.leBytes v k) = v % 256 ^ k := by
  induction k with
  | zero =>
    intro v
    simp [Bcs.leBytes, Bcs.le8Value, Nat.mod_one]
  | succ k ih =>
    intro v
    have hcons : Bcs.le8Value (v % 256 :: Bcs.leBytes (v / 256) k) =
        v % 256 + 256 * Bcs.le8Value (Bcs.leBytes (v / 256) k) := rfl
    show Bcs.le8Value (v % 256 :: Bcs.leBytes (v / 256) k) = v % 256 ^ (k + 1)
    rw [hcons, ih (v / 256)]
    have hd : v % (256 * 256 ^ k) =
        256 * (v % (256 * 256 ^ k) / 256) + v % (256 * 256 ^ k) % 256 :=
      (Nat.div_add_mod _ 256).symm
    rw [Nat.mod_mul_right_div_self, Nat.mod_mod_of_dvd _ ⟨256 ^ k, rfl⟩] at hd
    rw [pow_succ']
    omega

/-- Helper: an 8-byte little-endian block has length 8. -/
theorem leBytes_length (v : Nat) : (Bcs.leBytes v 8).length = 8 := rfl

/-- Helper: reading back `count = |vals|` u64 values from their
little-endian encoding returns the original values. -/
theorem readU64s_encode (vals : List Nat) : ∀ count : Int,
    (∀ v ∈ vals, v < 2 ^ 64) → count = (vals.length : Int) →
    Bcs.readU64s count
      (vals.foldr (fun v acc => Bcs.leBytes v 8 ++ acc) []) = vals := by
  induction vals with
  | nil =>
    intro count _ hc
    rw [Bcs.readU64s]
    rw [if_pos (Or.inr (by simp))]
  | cons v tl ih =>
    intro count hv hc
    simp only [List.foldr_cons]
    rw [Bcs.readU64s]
    rw [if_neg]
    · rw [List.take_left' (leBytes_length v),
        List.drop_left' (leBytes_length v)]
      rw [le8Value_leBytes 8 v]
      rw [Nat.mod_eq_of_lt (by
        have := hv v (List.mem_cons_self v tl)
        norm_num
        omega)]
      rw [ih (count - 1) (fun w hw => hv w (List.mem_cons_of_mem v hw))
        (by simp only [List.length_cons] at hc; push_cast at hc ⊢; omega)]
    · push_neg
      constructor
      · simp only [List.length_cons] at hc
        push_cast at hc
        omega
      · rw [List.length_append, leBytes_length]
        omega

set_option maxRecDepth 4000 in
/-- C9 (amended): for every sequence of fewer than `2 ^ 31` u64 values,
encoding it as a ULEB128 length prefix followed by the values as
little-endian 8-byte blocks and then decoding with `decodeU64Vector`
returns the same sequence. -/
theorem decode_encode_roundtrip (vals : List Nat)
    (hlen : vals.length < 2 ^ 31) (hvals : ∀ v ∈ vals, v < 2 ^ 64) :
    Bcs.decodeU64Vector (Bcs.encodeU64Vector vals) = vals := by
  simp only [Bcs.decodeU64Vector, Bcs.encodeU64Vector]
  rw [readUleb_top vals.length _ hlen]
  exact readU64s_encode vals _ hvals rfl

/-- Witness for the amended C9 theorem: a concrete three-element
sequence, one entry above `2 ^ 63`, round-trips. -/
theorem decode_encode_roundtrip_witness :
    Bcs.decodeU64Vector
      (Bcs.encodeU64Vector [1, 9223372036854775808, 5]) =
      [1, 9223372036854775808, 5] :=
  decode_encode_roundtrip _ (by norm_num)
    (by
      intro v hv
      simp only [List.mem_cons, List.mem_singleton] at hv
      rcases hv with rfl | rfl | rfl | hv
      · norm_num
      · norm_num
      · norm_num
      · exact absurd hv (List.not_mem_nil v))

/-- Helper: the JS shift of a zero value is zero. -/
theorem jsShl32_zero (s : Nat) : Bcs.jsShl32 0 s = 0 := by
  simp [Bcs.jsShl32, Bcs.toUint32, Bcs.toInt32]

/-- Helper: the JS or of two zeros is zero. -/
theorem jsOr32_zero_zero : Bcs.jsOr32 0 0 = 0 := by
  simp [Bcs.jsOr32, Bcs.toUint32, Bcs.toInt32]

/-- Helper: a `0x80` continuation byte carrying zero payload bits
leaves the accumulated length at 0 and bumps the shift by 7. -/
theorem readUleb_byte128_step (r : List Nat) (s : Nat) :
    Bcs.readUleb (128 :: r) 0 s = Bcs.readUleb r 0 (s + 7) := by
  simp only [Bcs.readUleb]
  rw [if_neg (by norm_num)]
  rw [show ((128 % 128 : Nat) : Int) = 0 by norm_num, jsShl32_zero,
    jsOr32_zero_zero]

/-- Helper: the canonical ULEB128 encoding of `2 ^ 31`. -/
theorem ulebEncode_two_pow_31 :
    Bcs.ulebEncode (2 ^ 31) = [128, 128, 128, 128, 8] := by
  rw [Bcs.ulebEncode]
  norm_num
  rw [Bcs.ulebEncode]
  norm_num
  rw [Bcs.ulebEncode]
  norm_num
  rw [Bcs.ulebEncode]
  norm_num
  rw [Bcs.ulebEncode]
  norm_num

/-- Helper: reading the ULEB128 prefix of `2 ^ 31` overflows the JS
32-bit accumulator to `-2 ^ 31`. -/
theorem readUleb_two_pow_31 (payload : List Nat) :
    Bcs.readUleb (([128, 128, 128, 128, 8] : List Nat) ++ payload) 0 0 =
      (-(2 ^ 31 : Int), payload) := by
  simp only [List.cons_append, List.nil_append]
  rw [readUleb_byte128_step, readUleb_byte128_step, readUleb_byte128_step,
    readUleb_byte128_step]
  simp only [Bcs.readUleb]
  rw [if_pos (by norm_num)]
  have h8 : Bcs.jsShl32 ((8 % 128 : Nat) : Int) (0 + 7 + 7 + 7 + 7) =
      -(2 ^ 31 : Int) := by
    simp only [Bcs.jsShl32, Bcs.toUint32, Bcs.toInt32]
    norm_num
  rw [h8]
  have hor : Bcs.jsOr32 0 (-(2 ^ 31 : Int)) = -(2 ^ 31 : Int) := by
    simp only [Bcs.jsOr32, Bcs.toUint32, Bcs.toInt32]
    norm_num
  rw [hor]

/-- C9 counterexample: for a sequence of exactly `2 ^ 31` u64 values,
the decoder's JS 32-bit length accumulator ends at `-2 ^ 31`, the
value-reading loop runs zero times, and decoding returns the empty
list instead of the original sequence — so the round trip fails at
this length.  (For still longer sequences the wrapped Int32 length
depends on the length mod `2 ^ 32` and may be positive again; this
theorem settles only the `2 ^ 31` instance.) -/
theorem decode_encode_two_pow_31_cex :
    Bcs.decodeU64Vector
      (Bcs.encodeU64Vector (List.replicate (2 ^ 31) 0)) = [] ∧
    List.replicate (2 ^ 31) (0 : Nat) ≠ [] := by
  constructor
  · simp only [Bcs.decodeU64Vector, Bcs.encodeU64Vector,
      List.length_replicate]
    rw [ulebEncode_two_pow_31, readUleb_two_pow_31]
    rw [Bcs.readU64s]
    rw [if_pos (Or.inl (by norm_num))]
  · intro h
    have := congrArg List.length h
    rw [List.length_replicate, List.length_nil] at this
    exact absurd this (by norm_num)
